import Mathlib

/-!
Shallow embedding of the ENR toplists crawler (src/controllers/crawler.js)
and verification of its specification.

JavaScript strings are modelled as Lean String values; the character-level
operations used by the crawler (includes, trim, toLowerCase, toUpperCase,
split(','), join(', '), endsWith) are modelled over the underlying
character list, matching the JS semantics on the inputs involved.
A loaded DOM page is modelled by serialized snapshots: the challenge gate
sees a (title, bodyText, presence-flags) snapshot, the extractor sees a
list of table structures, and the link discoverer sees an abstract
selector-query function together with the list of all anchors.
A page evaluation that throws is modelled by an Option-valued input
(none = the evaluation rejected).
-/

namespace Crawler

/-- Character-level model of the JS String.prototype test pat.startsWith-like
check used to build substring search: does the first list occur at the head
of the second? -/
def startsWithChars : List Char → List Char → Bool
  | [], _ => true
  | _ :: _, [] => false
  | p :: ps, c :: cs => p == c && startsWithChars ps cs

/-- Model of JS String.prototype.includes: does pat occur contiguously in l? -/
def containsSubChars (pat : List Char) : List Char → Bool
  | [] => startsWithChars pat []
  | c :: cs => startsWithChars pat (c :: cs) || containsSubChars pat cs

/-- s.includes(pat) on JS strings. -/
def strIncludes (s pat : String) : Bool :=
  containsSubChars pat.data s.data

/-- s.endsWith(pat) on JS strings. -/
def strEndsWith (s pat : String) : Bool :=
  startsWithChars pat.data.reverse s.data.reverse

/-- Character-level whitespace trim from both ends, modelling JS
String.prototype.trim on the whitespace characters occurring here. -/
def trimChars (l : List Char) : List Char :=
  ((l.dropWhile Char.isWhitespace).reverse.dropWhile Char.isWhitespace).reverse

/-- s.trim() on JS strings. -/
def strTrim (s : String) : String :=
  String.mk (trimChars s.data)

/-- s.toLowerCase() on JS strings (per-character lowering, faithful on the
ASCII marker strings the crawler compares against). -/
def strToLower (s : String) : String :=
  String.mk (s.data.map Char.toLower)

/-! ## ChallengeGate: waitForCloudflareChallenge (crawler.js lines 6-72)

The page state each page.evaluate call sees is serialized into a snapshot;
an evaluate call that rejects is modelled as none. -/

/-- Serialized page state inspected by the challenge checks. -/
structure PageSnapshot where
  hasBody : Bool
  title : String
  bodyText : String
  hasChallengeForm : Bool
  hasRayId : Bool
  hasCfCaptchaKind : Bool
deriving DecidableEq, Repr

/-- The first, non-polling challenge check (crawler.js lines 12-25):
title/body text markers plus the three challenge-only DOM elements;
a missing document.body reads as false (no challenge). -/
def initialChallengeCheck (p : PageSnapshot) : Bool :=
  if !p.hasBody then false
  else
    let title := strToLower p.title
    let bodyText := strToLower p.bodyText
    strIncludes title "just a moment" ||
    strIncludes title "verify" ||
    strIncludes bodyText "verify you are human" ||
    strIncludes bodyText "checking your browser" ||
    p.hasChallengeForm || p.hasRayId || p.hasCfCaptchaKind

/-- The polling challenge re-check (crawler.js lines 38-47): only the
title/body text markers; a missing document.body reads as true (still on
the challenge). -/
def pollingChallengeCheck (p : PageSnapshot) : Bool :=
  if !p.hasBody then true
  else
    let title := strToLower p.title
    let bodyText := strToLower p.bodyText
    strIncludes title "just a moment" ||
    strIncludes title "verify" ||
    strIncludes bodyText "verify you are human" ||
    strIncludes bodyText "checking your browser"

/-- The polling while-loop (crawler.js lines 35-60). polls gives the page
snapshot seen by the k-th polling evaluate, none when that evaluate
rejects, in which case the .catch(() =\x3e true) handler reports
still-on-challenge. Returns true as soon as the markers disappear, false
when the attempt budget is exhausted. -/
def pollChallenge (polls : Nat → Option PageSnapshot) : Nat → Nat → Bool
  | _, 0 => false
  | attempt, fuel + 1 =>
    let stillOnChallenge :=
      match polls attempt with
      | none => true
      | some p => pollingChallengeCheck p
    if stillOnChallenge then pollChallenge polls (attempt + 1) fuel
    else true

/-- waitForCloudflareChallenge (crawler.js lines 6-72). firstEval is the
result of the first page.evaluate (none = it rejected, landing in the
outer catch block at lines 68-71, which returns false); polls are the
polling evaluates. The attempt cap is 60. -/
def waitForCloudflareChallenge (firstEval : Option PageSnapshot)
    (polls : Nat → Option PageSnapshot) : Bool :=
  match firstEval with
  | none => false
  | some p =>
    if initialChallengeCheck p then pollChallenge polls 0 60
    else true

/-! ## LinkDiscoverer: getToplistLinks (crawler.js lines 367-427) and
PaginationResolver: getPaginationLinks (crawler.js lines 76-108)

The DOM is abstracted as a query function from a selector string to the
anchors it matches, plus the list of all anchors on the page (for the
site-wide fallback scan). Anchor.href models a.href, which the browser
exposes as the resolved absolute URL. -/

/-- A discovered anchor: resolved URL and its text content. -/
structure Anchor where
  href : String
  text : String
deriving DecidableEq, Repr

/-- The qualification test applied to every candidate anchor
(crawler.js line 388): a.href is truthy (non-empty) and contains the
path fragment toplists. -/
def qualifiesToplist (a : Anchor) : Bool :=
  !(a.href == "") && strIncludes a.href "toplists"

/-- The ordered selector strategies (crawler.js lines 374-382). -/
def selectors : List String :=
  ["div.linkArrow a",
   ".linkArrow a",
   "a[href*=\"toplists\"]",
   "a[href*=\"rankings\"]",
   "a.link-arrow",
   ".link-arrow a",
   "div[class*=\"arrow\"] a"]

/-- The for-loop over selector strategies (crawler.js lines 384-397).
acc models the linkArray accumulator: when a selector matches at least
one element, the qualifying anchors are appended, and the loop breaks
as soon as linkArray is non-empty. -/
def strategyLoop (query : String → List Anchor) (acc : List Anchor) :
    List String → List Anchor
  | [] => acc
  | sel :: rest =>
    let elements := query sel
    if elements.length > 0 then
      let acc2 := acc ++ elements.filter qualifiesToplist
      if acc2.length > 0 then acc2 else strategyLoop query acc2 rest
    else strategyLoop query acc rest

/-- The site-wide fallback scan (crawler.js lines 400-409): all anchors
whose href is non-empty, contains toplists, and is not the bare index
URL ending in /toplists. -/
def fallbackLinks (allAnchors : List Anchor) : List Anchor :=
  allAnchors.filter (fun a =>
    !(a.href == "") && strIncludes a.href "toplists" &&
    !(strEndsWith a.href "/toplists"))

/-- The linkArray before deduplication: strategies first, site-wide
fallback when every strategy contributed nothing (crawler.js lines
384-409). -/
def preDedupLinks (query : String → List Anchor) (allAnchors : List Anchor) :
    List Anchor :=
  let linkArray := strategyLoop query [] selectors
  if linkArray.length = 0 then fallbackLinks allAnchors else linkArray

/-- The duplicate-removal loop (crawler.js lines 412-420): seen is the
Set of hrefs already pushed to uniqueLinks. -/
def dedupByHref : List Anchor → List String → List Anchor
  | [], _ => []
  | a :: rest, seen =>
    if seen.contains a.href then dedupByHref rest seen
    else a :: dedupByHref rest (a.href :: seen)

/-- getToplistLinks (crawler.js lines 367-427). -/
def getToplistLinks (query : String → List Anchor) (allAnchors : List Anchor) :
    List Anchor :=
  dedupByHref (preDedupLinks query allAnchors) []

/-- getPaginationLinks (crawler.js lines 76-108): paginationTable is the
anchors inside table#paginationTable when that element exists; each is
kept when its href is non-empty and contains toplists, in DOM order. -/
def getPaginationLinks (paginationTable : Option (List Anchor)) : List Anchor :=
  match paginationTable with
  | none => []
  | some anchors => anchors.filter qualifiesToplist

/-! ## TableExtractor: extractTableData (crawler.js lines 112-280) -/

/-- A thead th element: its text content and its data-label attribute
(none when the attribute is absent). -/
structure HeaderCell where
  textContent : String
  dataLabel : Option String
deriving DecidableEq, Repr

/-- A table element: its id, its thead th cells, and its tbody rows,
each row being the list of td text contents. -/
structure TableDom where
  id : String
  headerCells : List HeaderCell
  bodyRows : List (List String)
deriving DecidableEq, Repr

/-- Header text extraction (crawler.js lines 137-146): trimmed text
content, overridden by the data-label attribute when that attribute is
present, truthy, and non-blank after trimming. -/
def headerText (th : HeaderCell) : String :=
  let base := strTrim th.textContent
  match th.dataLabel with
  | none => base
  | some dl => if !(dl == "") && !(strTrim dl == "") then strTrim dl else base

/-- Header normalization (crawler.js line 160):
h.toUpperCase().replace of all whitespace runs with the empty string. -/
def normalizeHeader (h : String) : String :=
  String.mk ((h.data.map Char.toUpper).filter (fun c => !c.isWhitespace))

/-- The rank-2025 branch condition (crawler.js line 164): the normalized
header contains both 2025 and RANK. -/
def rank2025Matches (h : String) : Bool :=
  let n := normalizeHeader h
  strIncludes n "2025" && strIncludes n "RANK"

/-- The rank-2024 else-if test (crawler.js lines 169-170): the normalized
header contains 2024 or 2023, together with RANK. -/
def rank2024Branch (h : String) : Bool :=
  let n := normalizeHeader h
  (strIncludes n "2024" || strIncludes n "2023") && strIncludes n "RANK"

/-- A column is actually resolved as rank-2024 only when the else-if is
reached, i.e. when the rank-2025 branch did not fire (crawler.js lines
164-174). -/
def rank2024Matches (h : String) : Bool :=
  !rank2025Matches h && rank2024Branch h

/-- The firm test (crawler.js line 177): exact normalized match. -/
def isFirmHeader (h : String) : Bool :=
  normalizeHeader h == "FIRM" || normalizeHeader h == "FIRMS"

/-- The three resolved column indices (rank2025Index, rank2024Index,
firmIndex of crawler.js lines 155-157); none models -1. -/
structure ColumnIdx where
  rank2025Index : Option Nat
  rank2024Index : Option Nat
  firmIndex : Option Nat
deriving DecidableEq, Repr

/-- One iteration of the header forEach (crawler.js lines 159-180),
written per-field: rank2025Index is overwritten on every rank-2025 match
(no first-match guard), rank2024Index only on the first header reaching
the else-if with a 2024/2023 match, firmIndex is overwritten on every
exact FIRM/FIRMS match (a separate if, not chained). -/
def resolveStep (acc : ColumnIdx) (p : Nat × String) : ColumnIdx :=
  ⟨if rank2025Matches p.2 then some p.1 else acc.rank2025Index,
   if rank2024Matches p.2 && acc.rank2024Index.isNone then some p.1
   else acc.rank2024Index,
   if isFirmHeader p.2 then some p.1 else acc.firmIndex⟩

/-- The full header forEach over (index, header) pairs. -/
def resolveColumns (headers : List String) : ColumnIdx :=
  headers.enum.foldl resolveStep ⟨none, none, none⟩

/-- Model of JS split(',') over the character list: splits at every
comma, keeping empty segments, never returning an empty list. -/
def splitComma : List Char → List (List Char)
  | [] => [[]]
  | c :: rest =>
    if c == ',' then [] :: splitComma rest
    else
      match splitComma rest with
      | [] => [[c]]
      | p :: ps => (c :: p) :: ps

/-- Model of JS Array.prototype.join with separator comma-space. -/
def joinComma : List String → String
  | [] => ""
  | [p] => p
  | p :: rest => p ++ ", " ++ joinComma rest

/-- The company/location split of a firm cell (crawler.js lines 204-221):
when the text contains a comma, it is split on commas, every part is
trimmed, the company name is the first part and the location is the
remaining parts joined with comma-space; otherwise the whole text is the
company name and the location is empty. -/
def parseFirm (s : String) : String × String :=
  if s.data.contains ',' then
    let parts := (splitComma s.data).map (fun p => strTrim (String.mk p))
    let companyName := parts.headD ""
    let location := if parts.length > 1 then joinComma (parts.drop 1) else ""
    (companyName, location)
  else (s, "")

/-- A normalized row is modelled as a JS object: an association list of
key-value pairs in insertion order. -/
abbrev RowData := List (String × String)

/-- The canonical headers constant (crawler.js lines 246 and 267). -/
def canonicalHeaders : List String :=
  ["RANK 2025", "RANK 2024", "Company Name", "Location"]

/-- The conditional rank-field insertion (crawler.js lines 230-237): the
key is added only when the column index was resolved and the cell at that
index exists in this row; its value is the trimmed cell text. -/
def rankField (idx : Option Nat) (cells : List String) (key : String) :
    RowData :=
  match idx with
  | none => []
  | some i =>
    match cells.get? i with
    | none => []
    | some cell => [(key, strTrim cell)]

/-- The body-row forEach body (crawler.js lines 189-239): rows with no td
cells are skipped, rows whose firm cell does not exist are skipped;
otherwise the row object carries Company Name and Location, plus the two
conditional rank fields. -/
def extractRow (r25 r24 : Option Nat) (firmIdx : Nat) (cells : List String) :
    Option RowData :=
  if cells.length = 0 then none
  else
    match cells.get? firmIdx with
    | none => none
    | some firmCell =>
      let firmText := strTrim firmCell
      let parsed := parseFirm firmText
      some ([("Company Name", parsed.1), ("Location", parsed.2)]
            ++ rankField r25 cells "RANK 2025"
            ++ rankField r24 cells "RANK 2024")

/-- The per-table extraction (crawler.js lines 131-240): tables with no
headers are skipped, tables with no resolved firm column are skipped,
otherwise the body rows are extracted in order. -/
def tableRows (t : TableDom) : List RowData :=
  let headers := t.headerCells.map headerText
  if headers.length = 0 then []
  else
    let cols := resolveColumns headers
    match cols.firmIndex with
    | none => []
    | some firmIdx =>
      t.bodyRows.filterMap
        (extractRow cols.rank2025Index cols.rank2024Index firmIdx)

/-- The tablesResults accumulation (crawler.js lines 125-251): the
pagination table is excluded by its id, and only tables yielding at least
one row are kept (each kept entry's data is its row list; the
tableIndex, headers and rowCount fields of the JS object carry no
additional information). -/
def extractAllTables (tables : List TableDom) : List (List RowData) :=
  ((tables.filter (fun t => !(t.id == "paginationTable"))).map tableRows).filter
    (fun rows => rows.length > 0)

/-- The value returned by extractTableData on success (crawler.js lines
266-270). -/
structure Extraction where
  headers : List String
  data : List RowData
  tablesFound : Nat
deriving DecidableEq, Repr

/-- extractTableData (crawler.js lines 112-280). pageEval is the result
of the page.evaluate call collecting all tables (none = it rejected, or
any other step threw, landing in the catch at lines 276-279, which
returns null). The preceding waitForSelector timeout is swallowed by its
own .catch whose return value is discarded, so it does not affect the
result. The function returns none (JS null) whenever no qualifying table
produced rows, and never an extraction with an empty row list. -/
def extractTableData (pageEval : Option (List TableDom)) : Option Extraction :=
  match pageEval with
  | none => none
  | some tables =>
    let tablesResults := extractAllTables tables
    if tablesResults.length > 0 then
      some ⟨canonicalHeaders, tablesResults.flatten, tablesResults.length⟩
    else none

/-! ## PageCrawler: crawlToplistPage (crawler.js lines 284-363)

The outcome of each pagination-page iteration is serialized: either the
page.goto threw (caught by the inner catch at lines 338-340, skipping the
page), or extractTableData completed with its Option result. The
challenge-gate result inside the loop is discarded by the source, so it
does not appear in the model. -/

/-- Outcome of one pagination-page iteration. -/
inductive PageAttempt where
  | navError : PageAttempt
  | extracted : Option Extraction → PageAttempt
deriving DecidableEq, Repr

/-- Rows a pagination-page attempt contributes to allData (crawler.js
lines 321-340): nothing on a navigation error, nothing when
extractTableData returned null, its data otherwise. -/
def attemptRows : PageAttempt → List RowData
  | .navError => []
  | .extracted none => []
  | .extracted (some e) => e.data

/-- The value returned by crawlToplistPage on success (crawler.js lines
347-354). -/
structure ToplistResult where
  listName : String
  url : String
  headers : List String
  data : List RowData
  rowCount : Nat
  paginatedPages : Nat
deriving DecidableEq, Repr

/-- crawlToplistPage (crawler.js lines 284-363). navOk is whether the
main-page goto succeeded (false lands in the outer catch, returning
null); paginationLinks is what getPaginationLinks returned on the main
page; mainExtract is extractTableData's result on the main page;
attempts i is the outcome of the iteration for the i-th pagination link.
Returns null when no rows were collected at all. -/
def crawlToplistPage (navOk : Bool) (paginationLinks : List Anchor)
    (mainExtract : Option Extraction) (attempts : Nat → PageAttempt)
    (listName url : String) : Option ToplistResult :=
  if navOk = false then none
  else
    let mainRows := match mainExtract with
      | none => []
      | some e => e.data
    let allData := mainRows ++
      ((List.range paginationLinks.length).map
        (fun i => attemptRows (attempts i))).flatten
    if allData.length > 0 then
      some ⟨listName, url, canonicalHeaders, allData, allData.length,
            if paginationLinks.length > 0 then paginationLinks.length + 1
            else 1⟩
    else none

/-! ## Claim C1: error handling of the challenge gate -/

/-- C1 counterexample: the claim asserts that an evaluation failure in
the very first, non-polling check is treated as assume-clear, i.e. the
call returns true. At the concrete input where the first evaluate
rejects (and every polling evaluate would too), waitForCloudflareChallenge
returns false, not true: the outer catch block returns false. -/
theorem challenge_firstError_cex :
    waitForCloudflareChallenge none (fun _ => none) = false := rfl

/-- C1 (amended): an evaluation failure during the very first,
non-polling check makes the call return false (treated as
challenge-not-cleared by the caller), whatever the later polls would
say; an evaluation failure during a polling iteration is treated as
still-challenged, so the iteration continues with the next attempt
instead of returning. -/
theorem challenge_error_asymmetry :
    (∀ polls, waitForCloudflareChallenge none polls = false) ∧
    (∀ polls attempt fuel, polls attempt = none →
      pollChallenge polls attempt (fuel + 1) =
        pollChallenge polls (attempt + 1) fuel) := by
  constructor
  · intro polls
    rfl
  · intro polls attempt fuel h
    simp [pollChallenge, h]

/-- C1 witness: the amended theorem applied at concrete inputs. -/
theorem challenge_error_asymmetry_witness :
    waitForCloudflareChallenge none (fun _ => some ⟨true, "ENR", "news", false, false, false⟩) = false ∧
    pollChallenge (fun _ => none) 0 60 = pollChallenge (fun _ => none) 1 59 :=
  ⟨challenge_error_asymmetry.1 _, challenge_error_asymmetry.2 _ 0 59 rfl⟩

/-! ## Claim C2: failure policy of extractTableData -/

/-- C2 counterexample: the claim asserts that when no table appears, or
any extraction step raises, extractTableData returns an empty extraction
with an empty row list and tablesFound zero. At the concrete failing
inputs (the page evaluation rejected; the page evaluation found no
tables), the function returns null (none), not such an extraction
object. -/
theorem extractTableData_failure_cex :
    extractTableData none = none ∧
    extractTableData (some []) = none ∧
    extractTableData none ≠ some ⟨canonicalHeaders, [], 0⟩ ∧
    extractTableData (some []) ≠ some ⟨canonicalHeaders, [], 0⟩ := by
  refine ⟨rfl, rfl, ?_, ?_⟩ <;> decide

/-- C2 (amended): if no qualifying table yields rows, or any extraction
step raises, extractTableData returns null (none) rather than an
extraction object, and the error never propagates to the caller (every
failure is mapped to the null result); when it does return an
extraction, that extraction counted at least one row-yielding table. -/
theorem extractTableData_failure_null :
    extractTableData none = none ∧
    (∀ tables, extractAllTables tables = [] →
      extractTableData (some tables) = none) ∧
    (∀ tables e, extractTableData (some tables) = some e →
      e.tablesFound > 0) := by
  refine ⟨rfl, ?_, ?_⟩
  · intro tables h
    simp [extractTableData, h]
  · intro tables e h
    simp only [extractTableData] at h
    split at h
    · cases h
      simpa using by assumption
    · cases h

/-- C2 witness: the amended theorem applied at concrete inputs. -/
theorem extractTableData_failure_null_witness :
    extractTableData (some [⟨"t", [], [["AECOM"]]⟩]) = none ∧
    (⟨canonicalHeaders, [[("Company Name", "AECOM"), ("Location", "")]], 1⟩ :
      Extraction).tablesFound > 0 :=
  ⟨extractTableData_failure_null.2.1 _ rfl,
   extractTableData_failure_null.2.2 [⟨"t", [⟨"FIRM", none⟩], [["AECOM"]]⟩] _ rfl⟩

/-! ## Claim C3: ordered selector strategies with first-win semantics -/

/-- Helper: a strategy whose qualifying anchors are non-empty terminates
the loop with exactly those anchors, provided every earlier strategy
contributed no qualifying anchor. -/
theorem strategyLoop_first_win (query : String → List Anchor) :
    ∀ (pre : List String) (s : String) (post : List String),
    (∀ t ∈ pre, (query t).filter qualifiesToplist = []) →
    (query s).filter qualifiesToplist ≠ [] →
    strategyLoop query [] (pre ++ s :: post) =
      (query s).filter qualifiesToplist := by
  intro pre
  induction pre with
  | nil =>
    intro s post _ hs
    have hlen : (query s).length > 0 := by
      rcases Nat.eq_zero_or_pos (query s).length with h0 | h
      · exact absurd (by simp [List.length_eq_zero.mp h0]) hs
      · exact h
    have hflen : ((query s).filter qualifiesToplist).length > 0 :=
      List.length_pos.mpr hs
    simp only [List.nil_append, strategyLoop, List.nil_append]
    rw [if_pos hlen, if_pos hflen]
  | cons t pre ih =>
    intro s post hpre hs
    have ht : (query t).filter qualifiesToplist = [] := hpre t (by simp)
    have hrest : ∀ u ∈ pre, (query u).filter qualifiesToplist = [] :=
      fun u hu => hpre u (by simp [hu])
    simp only [List.cons_append, strategyLoop, ht, List.append_nil]
    split
    · simpa using ih s post hrest hs
    · exact ih s post hrest hs

/-- C3: the selector strategies are tried in the fixed order; the first
strategy yielding at least one qualifying anchor wins and short-circuits
all remaining strategies, the loop returning exactly its qualifying
anchors; and every anchor so returned contains the path fragment
toplists in its resolved URL. -/
theorem strategy_first_win (query : String → List Anchor)
    (pre : List String) (s : String) (post : List String)
    (hsel : selectors = pre ++ s :: post)
    (hpre : ∀ t ∈ pre, (query t).filter qualifiesToplist = [])
    (hs : (query s).filter qualifiesToplist ≠ []) :
    strategyLoop query [] selectors = (query s).filter qualifiesToplist ∧
    ∀ a ∈ strategyLoop query [] selectors,
      strIncludes a.href "toplists" = true := by
  have h := strategyLoop_first_win query pre s post hpre hs
  rw [hsel]
  refine ⟨h, ?_⟩
  rw [h]
  intro a ha
  have := (List.mem_filter.mp ha).2
  simp only [qualifiesToplist, Bool.and_eq_true] at this
  exact this.2

/-- Concrete query for the C3 witness: the first selector matches
nothing, the second matches one qualifying anchor. -/
def demoQuery : String → List Anchor :=
  fun sel =>
    if sel == ".linkArrow a" then
      [⟨"https://www.enr.com/toplists/2025-Top-500-Design-Firms", "Top 500 Design Firms"⟩]
    else []

/-- C3 witness: the theorem applied at the concrete query, with the
first strategy yielding nothing and the second winning. -/
theorem strategy_first_win_witness :
    strategyLoop demoQuery [] selectors =
      (demoQuery ".linkArrow a").filter qualifiesToplist ∧
    ∀ a ∈ strategyLoop demoQuery [] selectors,
      strIncludes a.href "toplists" = true :=
  strategy_first_win demoQuery ["div.linkArrow a"] ".linkArrow a"
    ["a[href*=\"toplists\"]", "a[href*=\"rankings\"]", "a.link-arrow",
     ".link-arrow a", "div[class*=\"arrow\"] a"]
    rfl (by decide) (by decide)

/-! ## Claim C4: pageCount of a crawled toplist -/

/-- C4: whenever crawlToplistPage returns a result, its paginatedPages
count equals the number of pagination links resolved from the main page
plus one, for every possible combination of per-link attempt outcomes
(so an errored pagination page still counts as attempted); in
particular, with no pagination links it equals 1. -/
theorem pageCount_eq (navOk : Bool) (paginationLinks : List Anchor)
    (mainExtract : Option Extraction) (attempts : Nat → PageAttempt)
    (listName url : String) (result : ToplistResult)
    (h : crawlToplistPage navOk paginationLinks mainExtract attempts
          listName url = some result) :
    result.paginatedPages = paginationLinks.length + 1 ∧
    (paginationLinks = [] → result.paginatedPages = 1) := by
  simp only [crawlToplistPage] at h
  split at h
  · cases h
  · split at h
    · cases h
      constructor
      · simp only
        split
        · rfl
        · omega
      · intro he
        simp [he]
    · cases h

/-- C4 witness: the theorem applied at a concrete crawl in which both
pagination-page attempts errored, yielding paginatedPages 3 for two
pagination links; plus the no-pagination instance yielding 1. -/
theorem pageCount_eq_witness :
    ((⟨"L", "U", canonicalHeaders, [[("Company Name", "AECOM"), ("Location", "")]], 1, 3⟩ :
        ToplistResult).paginatedPages =
      ([⟨"p2", "2"⟩, ⟨"p3", "3"⟩] : List Anchor).length + 1 ∧
      (([⟨"p2", "2"⟩, ⟨"p3", "3"⟩] : List Anchor) = [] →
        (⟨"L", "U", canonicalHeaders, [[("Company Name", "AECOM"), ("Location", "")]], 1, 3⟩ :
          ToplistResult).paginatedPages = 1)) ∧
    ((⟨"L", "U", canonicalHeaders, [[("Company Name", "AECOM"), ("Location", "")]], 1, 1⟩ :
        ToplistResult).paginatedPages = ([] : List Anchor).length + 1 ∧
      (([] : List Anchor) = [] →
        (⟨"L", "U", canonicalHeaders, [[("Company Name", "AECOM"), ("Location", "")]], 1, 1⟩ :
          ToplistResult).paginatedPages = 1)) :=
  ⟨pageCount_eq true [⟨"p2", "2"⟩, ⟨"p3", "3"⟩]
      (some ⟨canonicalHeaders, [[("Company Name", "AECOM"), ("Location", "")]], 1⟩)
      (fun _ => .navError) "L" "U" _ rfl,
   pageCount_eq true []
      (some ⟨canonicalHeaders, [[("Company Name", "AECOM"), ("Location", "")]], 1⟩)
      (fun _ => .navError) "L" "U" _ rfl⟩

/-! ## Claim C5: firm column resolves only on exact FIRM/FIRMS match -/

/-- Helper: any firm index produced by the header fold either came from
the initial accumulator or from a pair in the list whose header passes
the exact FIRM/FIRMS test. -/
theorem foldl_firmIndex_some :
    ∀ (l : List (Nat × String)) (acc : ColumnIdx) (i : Nat),
    (l.foldl resolveStep acc).firmIndex = some i →
    acc.firmIndex = some i ∨ ∃ h, (i, h) ∈ l ∧ isFirmHeader h = true := by
  intro l
  induction l with
  | nil =>
    intro acc i h
    exact Or.inl h
  | cons x t ih =>
    intro acc i h
    rcases ih (resolveStep acc x) i h with hstep | ⟨hh, hmem, hfirm⟩
    · simp only [resolveStep] at hstep
      by_cases hf : isFirmHeader x.2 = true
      · rw [if_pos hf] at hstep
        cases hstep
        exact Or.inr ⟨x.2, by simp, hf⟩
      · rw [if_neg hf] at hstep
        exact Or.inl hstep
    · exact Or.inr ⟨hh, by simp [hmem], hfirm⟩

/-- Helper: when no header in the list passes the FIRM/FIRMS test, the
fold leaves the firm index untouched. -/
theorem foldl_firmIndex_none :
    ∀ (l : List (Nat × String)) (acc : ColumnIdx),
    (∀ p ∈ l, isFirmHeader p.2 = false) →
    (l.foldl resolveStep acc).firmIndex = acc.firmIndex := by
  intro l
  induction l with
  | nil =>
    intro acc _
    rfl
  | cons x t ih =>
    intro acc hall
    have hx : isFirmHeader x.2 = false := hall x (by simp)
    have ht : ∀ p ∈ t, isFirmHeader p.2 = false :=
      fun p hp => hall p (by simp [hp])
    rw [List.foldl_cons, ih (resolveStep acc x) ht]
    simp [resolveStep, hx]

/-- C5: a header resolves as the firm column only when its normalized
form (uppercased, whitespace removed) is exactly FIRM or FIRMS; and a
table none of whose headers normalizes to FIRM or FIRMS yields no rows
at all, whatever its other columns and body rows contain. -/
theorem firm_exact_match :
    (∀ (headers : List String) (i : Nat),
      (resolveColumns headers).firmIndex = some i →
      ∃ h, headers.get? i = some h ∧
        (normalizeHeader h = "FIRM" ∨ normalizeHeader h = "FIRMS")) ∧
    (∀ t : TableDom,
      (∀ h ∈ t.headerCells.map headerText, isFirmHeader h = false) →
      tableRows t = []) := by
  constructor
  · intro headers i hidx
    rcases foldl_firmIndex_some headers.enum ⟨none, none, none⟩ i hidx with
      h0 | ⟨h, hmem, hfirm⟩
    · cases h0
    · refine ⟨h, ?_, ?_⟩
      · have := List.mem_enumFrom hmem
        simp only [Nat.sub_zero] at this
        rw [List.get?_eq_getElem?, List.getElem?_eq_getElem (by omega)]
        simp [this.2.2]
      · simp only [isFirmHeader, Bool.or_eq_true, beq_iff_eq] at hfirm
        exact hfirm
  · intro t hall
    simp only [tableRows]
    split
    · rfl
    · have hnone : (resolveColumns (t.headerCells.map headerText)).firmIndex = none := by
        rw [resolveColumns, foldl_firmIndex_none]
        intro p hp
        refine hall p.2 ?_
        have : p.2 ∈ (t.headerCells.map headerText).enum.map Prod.snd :=
          List.mem_map_of_mem Prod.snd hp
        rwa [List.enum_map_snd] at this
      rw [hnone]

/-- C5 witness: the theorem applied at a concrete header list whose
third column is Firms, and at a concrete table with rank columns but no
firm column. -/
theorem firm_exact_match_witness :
    (∃ h, (["RANK 2025", "RANK 2024", "Firms"] : List String).get? 2 = some h ∧
      (normalizeHeader h = "FIRM" ∨ normalizeHeader h = "FIRMS")) ∧
    tableRows ⟨"t", [⟨"RANK 2025", none⟩, ⟨"Company", none⟩], [["1", "AECOM"]]⟩ = [] :=
  ⟨firm_exact_match.1 ["RANK 2025", "RANK 2024", "Firms"] 2 (by decide),
   firm_exact_match.2 ⟨"t", [⟨"RANK 2025", none⟩, ⟨"Company", none⟩], [["1", "AECOM"]]⟩
     (by decide)⟩

/-! ## Claim C6: company/location split of the firm cell -/

/-- Helper: splitComma never returns an empty list. -/
theorem splitComma_ne_nil : ∀ l : List Char, ∃ p ps, splitComma l = p :: ps := by
  intro l
  induction l with
  | nil => exact ⟨[], [], rfl⟩
  | cons c rest ih =>
    rcases ih with ⟨p, ps, hp⟩
    by_cases hc : (c == ',') = true
    · exact ⟨[], splitComma rest, by simp [splitComma, hc]⟩
    · exact ⟨c :: p, ps, by simp [splitComma, hc, hp]⟩

/-- Helper: when a comma is present, splitComma peels off the segment
before the first comma and recurses on the characters after it. -/
theorem splitComma_eq_of_mem :
    ∀ l : List Char, ',' ∈ l →
    splitComma l = l.takeWhile (fun c => !(c == ',')) ::
      splitComma ((l.dropWhile (fun c => !(c == ','))).tail) := by
  intro l
  induction l with
  | nil => intro h; cases h
  | cons c rest ih =>
    intro hmem
    by_cases hc : (c == ',') = true
    · have : c = ',' := beq_iff_eq.mp hc
      simp [splitComma, hc, List.takeWhile_cons, List.dropWhile_cons, this]
    · have hrest : ',' ∈ rest := by
        rcases List.mem_cons.mp hmem with h | h
        · exact absurd (beq_iff_eq.mpr h.symm) hc
        · exact h
      rcases splitComma_ne_nil ((rest.dropWhile (fun c => !(c == ','))).tail) with
        ⟨p, ps, hp⟩
      simp [splitComma, hc, ih hrest, List.takeWhile_cons, List.dropWhile_cons]

/-- The company name as the spec words it: the substring of the firm
field before the first comma, trimmed. -/
def specCompanyName (s : String) : String :=
  strTrim (String.mk (s.data.takeWhile (fun c => !(c == ','))))

/-- The characters of the firm field after its first comma. -/
def specAfterComma (s : String) : List Char :=
  (s.data.dropWhile (fun c => !(c == ','))).tail

/-- The location as the spec words it: everything after the first comma,
split into comma segments, each segment trimmed, rejoined with
comma-space. -/
def specLocation (s : String) : String :=
  joinComma ((splitComma (specAfterComma s)).map (fun p => strTrim (String.mk p)))

/-- C6: for every firm cell text, if it contains a comma then the
company name is the trimmed substring before the first comma and the
location is everything after the first comma, each comma segment
trimmed, rejoined with comma-space; if it contains no comma then the
company name is the full text and the location is empty. -/
theorem parseFirm_split_rule (s : String) :
    (s.data.contains ',' = true →
      parseFirm s = (specCompanyName s, specLocation s)) ∧
    (s.data.contains ',' = false → parseFirm s = (s, "")) := by
  constructor
  · intro h
    have hmem : ',' ∈ s.data := by
      simpa using h
    simp only [parseFirm, h, if_true]
    rw [splitComma_eq_of_mem s.data hmem]
    rcases splitComma_ne_nil ((s.data.dropWhile (fun c => !(c == ','))).tail) with
      ⟨p, ps, hp⟩
    simp only [List.map_cons, List.headD_cons, List.length_cons, List.drop_one,
      List.tail_cons]
    rw [if_pos (by simp [hp])]
    rfl
  · intro h
    simp only [parseFirm]
    rw [if_neg (by rw [h]; simp)]

/-- C6 witness: the theorem applied at the spec's example inputs. -/
theorem parseFirm_split_rule_witness :
    parseFirm "AECOM, Dallas, Texas" =
      (specCompanyName "AECOM, Dallas, Texas", specLocation "AECOM, Dallas, Texas") ∧
    parseFirm "AECOM" = ("AECOM", "") :=
  ⟨(parseFirm_split_rule "AECOM, Dallas, Texas").1 (by decide),
   (parseFirm_split_rule "AECOM").2 (by decide)⟩

/-! ## Claim C7: rank-2024 header matching -/

/-- Helper: the fold resolves the rank-2024 index to the initial value
when one is set, and otherwise to the position of the first pair whose
header reaches the else-if with a 2024/2023 match. -/
theorem foldl_rank2024Index :
    ∀ (l : List (Nat × String)) (acc : ColumnIdx),
    (l.foldl resolveStep acc).rank2024Index =
      match acc.rank2024Index with
      | some j => some j
      | none => (l.find? (fun p => rank2024Matches p.2)).map Prod.fst := by
  intro l
  induction l with
  | nil =>
    intro acc
    rcases hacc : acc.rank2024Index with _ | j <;> simp [hacc]
  | cons x t ih =>
    intro acc
    rw [List.foldl_cons, ih (resolveStep acc x)]
    rcases hacc : acc.rank2024Index with _ | j
    · by_cases hm : rank2024Matches x.2 = true
      · simp [resolveStep, hacc, hm, List.find?_cons]
      · simp only [Bool.not_eq_true] at hm
        simp [resolveStep, hacc, hm, List.find?_cons]
    · simp [resolveStep, hacc]

/-- C7 counterexample: the claim asserts that rank-2024 matching accepts
every normalized header containing RANK together with 2024 or 2023. The
concrete header Rank 2024 2025 normalizes to a form containing RANK and
2024, it is the only candidate column, yet the code resolves no
rank-2024 column for it at all: the header also contains 2025, so the
rank-2025 branch of the else-if chain claims it first. -/
theorem rank2024_accept_cex :
    strIncludes (normalizeHeader "Rank 2024 2025") "RANK" = true ∧
    strIncludes (normalizeHeader "Rank 2024 2025") "2024" = true ∧
    (resolveColumns ["Rank 2024 2025", "FIRM"]).rank2024Index = none := by
  refine ⟨by decide, by decide, by decide⟩

/-- C7 (amended): rank-2024 header matching is case-insensitive and
whitespace-insensitive (it depends only on the normalized header), and
it accepts a normalized form containing RANK together with 2024 or 2023
provided the header does not also match the rank-2025 pattern (a header
whose normalized form contains both RANK and 2025 is taken by the
rank-2025 branch and never resolves as rank-2024); when two or more
columns match, only the first (lowest index) is used and later
duplicates are ignored. -/
theorem rank2024_first_match :
    (∀ h₁ h₂, normalizeHeader h₁ = normalizeHeader h₂ →
      rank2024Matches h₁ = rank2024Matches h₂) ∧
    (∀ headers : List String,
      (resolveColumns headers).rank2024Index =
        (headers.enum.find? (fun p => rank2024Matches p.2)).map Prod.fst) := by
  constructor
  · intro h₁ h₂ h
    simp [rank2024Matches, rank2025Matches, rank2024Branch, h]
  · intro headers
    rw [resolveColumns, foldl_rank2024Index]

/-- C7 witness: the amended theorem applied at concrete inputs --- the
insensitivity instance at two spellings of rank 2023 with equal
normalizations, and the first-match instance at a header list with two
2024/2023-matching columns, where the first (index 1) wins. -/
theorem rank2024_first_match_witness :
    rank2024Matches "rank  2023" = rank2024Matches "RANK2023" ∧
    (resolveColumns ["FIRM", "Rank 2024", "RANK 2023"]).rank2024Index =
      ((["FIRM", "Rank 2024", "RANK 2023"] : List String).enum.find?
        (fun p => rank2024Matches p.2)).map Prod.fst :=
  ⟨rank2024_first_match.1 "rank  2023" "RANK2023" (by decide),
   rank2024_first_match.2 ["FIRM", "Rank 2024", "RANK 2023"]⟩

/-! ## Claim C8: deduplication by href, first-encounter order -/

/-- Helper: the dedup loop returns a sublist of its input, so relative
order is preserved. -/
theorem dedupByHref_sublist :
    ∀ (l : List Anchor) (seen : List String), (dedupByHref l seen).Sublist l := by
  intro l
  induction l with
  | nil =>
    intro seen
    simp [dedupByHref]
  | cons a rest ih =>
    intro seen
    simp only [dedupByHref]
    split
    · exact (ih seen).cons a
    · exact (ih (a.href :: seen)).cons₂ a

/-- Helper: no anchor kept by the dedup loop has an href already in the
seen set. -/
theorem dedupByHref_not_seen :
    ∀ (l : List Anchor) (seen : List String) (a : Anchor),
    a ∈ dedupByHref l seen → seen.contains a.href = false := by
  intro l
  induction l with
  | nil =>
    intro seen a ha
    cases ha
  | cons b rest ih =>
    intro seen a ha
    simp only [dedupByHref] at ha
    split at ha
    · exact ih seen a ha
    · rename_i hns
      rcases List.mem_cons.mp ha with h | h
      · subst h
        simp only [Bool.not_eq_true] at hns
        exact hns
      · have := ih (b.href :: seen) a h
        simp only [List.contains_cons, Bool.or_eq_false_iff] at this
        exact this.2

/-- Helper: the hrefs kept by the dedup loop are pairwise distinct. -/
theorem dedupByHref_nodup :
    ∀ (l : List Anchor) (seen : List String),
    ((dedupByHref l seen).map Anchor.href).Nodup := by
  intro l
  induction l with
  | nil =>
    intro seen
    simp [dedupByHref]
  | cons b rest ih =>
    intro seen
    simp only [dedupByHref]
    split
    · exact ih seen
    · simp only [List.map_cons, List.nodup_cons]
      refine ⟨?_, ih (b.href :: seen)⟩
      intro hmem
      rcases List.mem_map.mp hmem with ⟨a, ha, hhref⟩
      have := dedupByHref_not_seen rest (b.href :: seen) a ha
      simp [hhref] at this

/-- Helper: every anchor kept by the dedup loop is the first element of
the input with its href. -/
theorem dedupByHref_first :
    ∀ (l : List Anchor) (seen : List String) (a : Anchor),
    a ∈ dedupByHref l seen →
    l.find? (fun b => b.href == a.href) = some a := by
  intro l
  induction l with
  | nil =>
    intro seen a ha
    cases ha
  | cons b rest ih =>
    intro seen a ha
    have hnotseen := dedupByHref_not_seen (b :: rest) seen a ha
    simp only [dedupByHref] at ha
    split at ha
    · rename_i hseen
      have hb : (b.href == a.href) = false := by
        simp only [beq_eq_false_iff_ne]
        intro hc
        rw [hc, hnotseen] at hseen
        cases hseen
      rw [List.find?_cons, hb]
      exact ih seen a ha
    · rcases List.mem_cons.mp ha with h | h
      · subst h
        rw [List.find?_cons, beq_self_eq_true]
      · have hrec := dedupByHref_not_seen rest (b.href :: seen) a h
        simp only [List.contains_cons, Bool.or_eq_false_iff, beq_eq_false_iff_ne] at hrec
        have hb : (b.href == a.href) = false := by
          simp only [beq_eq_false_iff_ne]
          exact fun hc => hrec.1 hc.symm
        rw [List.find?_cons, hb]
        exact ih (b.href :: seen) a h

/-- C8: the anchor list returned by getToplistLinks contains no two
entries with the same href, it is a sublist of the pre-deduplication
link array (so order is preserved), and every returned entry is the
first-encountered anchor with its href in that array. -/
theorem getToplistLinks_dedup (query : String → List Anchor)
    (allAnchors : List Anchor) :
    ((getToplistLinks query allAnchors).map Anchor.href).Nodup ∧
    (getToplistLinks query allAnchors).Sublist (preDedupLinks query allAnchors) ∧
    ∀ a ∈ getToplistLinks query allAnchors,
      (preDedupLinks query allAnchors).find? (fun b => b.href == a.href) = some a :=
  ⟨dedupByHref_nodup _ [],
   dedupByHref_sublist _ [],
   fun a ha => dedupByHref_first _ [] a ha⟩

/-- C8 witness: the theorem applied to a page whose fallback scan finds
a duplicated href; the duplicate is dropped and the kept entry is the
first occurrence. -/
theorem getToplistLinks_dedup_witness :
    (preDedupLinks (fun _ => [])
        [⟨"https://x/toplists/a", "A"⟩, ⟨"https://x/toplists/b", "B"⟩,
         ⟨"https://x/toplists/a", "A2"⟩]).find?
      (fun b => b.href == "https://x/toplists/a") =
      some ⟨"https://x/toplists/a", "A"⟩ :=
  (getToplistLinks_dedup (fun _ => [])
      [⟨"https://x/toplists/a", "A"⟩, ⟨"https://x/toplists/b", "B"⟩,
       ⟨"https://x/toplists/a", "A2"⟩]).2.2
    ⟨"https://x/toplists/a", "A"⟩ (by decide)

/-! ## Claim C9: canonical keys and rank-field presence -/

/-- Helper: every pair contributed by rankField carries exactly the
requested key. -/
theorem rankField_key (idx : Option Nat) (cells : List String)
    (key : String) (kv : String × String)
    (h : kv ∈ rankField idx cells key) : kv.1 = key := by
  rcases idx with _ | i
  · cases h
  · simp only [rankField] at h
    rcases hcell : cells.get? i with _ | c
    · rw [hcell] at h
      cases h
    · rw [hcell] at h
      rw [List.mem_singleton.mp h]

/-- Helper: every key of a row built by extractRow is one of the four
canonical keys. -/
theorem extractRow_keys (r25 r24 : Option Nat) (firmIdx : Nat)
    (cells : List String) (row : RowData)
    (h : extractRow r25 r24 firmIdx cells = some row) :
    ∀ kv ∈ row, kv.1 ∈ canonicalHeaders := by
  simp only [extractRow] at h
  split at h
  · cases h
  · split at h
    · cases h
    · cases h
      intro kv hkv
      rcases List.mem_append.mp hkv with h12 | h24
      · rcases List.mem_append.mp h12 with hbase | h25
        · rcases List.mem_cons.mp hbase with h1 | h1
          · simp [h1, canonicalHeaders]
          · rw [List.mem_singleton.mp h1]
            simp [canonicalHeaders]
        · rw [rankField_key r25 cells "RANK 2025" kv h25]
          simp [canonicalHeaders]
      · rw [rankField_key r24 cells "RANK 2024" kv h24]
        simp [canonicalHeaders]

/-- Helper: a key appears among the pairs contributed by rankField
exactly when the column index was resolved and the cell exists. -/
theorem rankField_mem_iff (idx : Option Nat) (cells : List String)
    (key : String) :
    (∃ v, (key, v) ∈ rankField idx cells key) ↔
      ∃ i, idx = some i ∧ i < cells.length := by
  rcases idx with _ | i
  · simp [rankField]
  · simp only [rankField]
    rcases hcell : cells.get? i with _ | c
    · simp only [List.not_mem_nil, exists_false, false_iff]
      intro ⟨j, hj, hlen⟩
      cases hj
      rw [List.get?_eq_getElem?, List.getElem?_eq_getElem hlen] at hcell
      cases hcell
    · simp only [List.mem_singleton, Prod.mk.injEq, true_and]
      constructor
      · intro _
        refine ⟨i, rfl, ?_⟩
        by_contra hge
        rw [List.get?_eq_getElem?, List.getElem?_eq_none (by omega)] at hcell
        cases hcell
      · intro _
        exact ⟨strTrim c, rfl⟩

/-- C9: every row reaching the output of extractTableData carries only
keys among the canonical four; and in every row built by extractRow, a
rank key is present exactly when the corresponding column was resolved
for the table and the cell at that index exists in the row --- when the
condition fails, the key is omitted rather than set to an empty
string. -/
theorem extract_canonical_keys :
    (∀ (pageEval : Option (List TableDom)) (e : Extraction),
      extractTableData pageEval = some e →
      ∀ row ∈ e.data, ∀ kv ∈ row, kv.1 ∈ canonicalHeaders) ∧
    (∀ (r25 r24 : Option Nat) (firmIdx : Nat) (cells : List String)
      (row : RowData), extractRow r25 r24 firmIdx cells = some row →
      ((∃ v, ("RANK 2025", v) ∈ row) ↔
        ∃ i, r25 = some i ∧ i < cells.length) ∧
      ((∃ v, ("RANK 2024", v) ∈ row) ↔
        ∃ i, r24 = some i ∧ i < cells.length)) := by
  constructor
  · rintro (_ | tables) e he row hrow kv hkv
    · cases he
    · simp only [extractTableData] at he
      split at he
      · cases he
        simp only [List.mem_flatten] at hrow
        rcases hrow with ⟨rows, hrows, hrowmem⟩
        simp only [extractAllTables, List.mem_filter, List.mem_map] at hrows
        rcases hrows.1 with ⟨t, _, hrt⟩
        subst hrt
        simp only [tableRows] at hrowmem
        split at hrowmem
        · cases hrowmem
        · split at hrowmem
          · cases hrowmem
          · rcases List.mem_filterMap.mp hrowmem with ⟨cells, _, hex⟩
            exact extractRow_keys _ _ _ cells row hex kv hkv
      · cases he
  · intro r25 r24 firmIdx cells row h
    simp only [extractRow] at h
    split at h
    · cases h
    · split at h
      · cases h
      · cases h
        constructor
        · rw [← rankField_mem_iff r25 cells "RANK 2025"]
          constructor
          · rintro ⟨v, hv⟩
            rcases List.mem_append.mp hv with h12 | h24
            · rcases List.mem_append.mp h12 with hbase | h25
              · exfalso
                rcases List.mem_cons.mp hbase with h1 | h1
                · exact absurd (congrArg Prod.fst h1)
                    (by decide : ¬("RANK 2025" = "Company Name"))
                · exact absurd (congrArg Prod.fst (List.mem_singleton.mp h1))
                    (by decide : ¬("RANK 2025" = "Location"))
              · exact ⟨v, h25⟩
            · exact absurd (rankField_key r24 cells "RANK 2024" _ h24)
                (by decide : ¬("RANK 2025" = "RANK 2024"))
          · rintro ⟨v, hv⟩
            exact ⟨v, by simp [hv]⟩
        · rw [← rankField_mem_iff r24 cells "RANK 2024"]
          constructor
          · rintro ⟨v, hv⟩
            rcases List.mem_append.mp hv with h12 | h24
            · rcases List.mem_append.mp h12 with hbase | h25
              · exfalso
                rcases List.mem_cons.mp hbase with h1 | h1
                · exact absurd (congrArg Prod.fst h1)
                    (by decide : ¬("RANK 2024" = "Company Name"))
                · exact absurd (congrArg Prod.fst (List.mem_singleton.mp h1))
                    (by decide : ¬("RANK 2024" = "Location"))
              · exact absurd (rankField_key r25 cells "RANK 2025" _ h25)
                  (by decide : ¬("RANK 2024" = "RANK 2025"))
            · exact ⟨v, h24⟩
          · rintro ⟨v, hv⟩
            exact ⟨v, by simp [hv]⟩

/-- C9 witness: the theorem applied at a concrete page with one table
(rank-2025 column resolved, rank-2024 absent) and at the corresponding
concrete row. -/
theorem extract_canonical_keys_witness :
    (("RANK 2025", "1") : String × String).1 ∈ canonicalHeaders ∧
    (((∃ v, ("RANK 2025", v) ∈
        ([("Company Name", "AECOM"), ("Location", ""), ("RANK 2025", "1")] : RowData)) ↔
      ∃ i, (some 0 : Option Nat) = some i ∧ i < (["1", "AECOM"] : List String).length) ∧
     ((∃ v, ("RANK 2024", v) ∈
        ([("Company Name", "AECOM"), ("Location", ""), ("RANK 2025", "1")] : RowData)) ↔
      ∃ i, (none : Option Nat) = some i ∧ i < (["1", "AECOM"] : List String).length)) :=
  ⟨extract_canonical_keys.1
      (some [⟨"t", [⟨"RANK 2025", none⟩, ⟨"FIRM", none⟩], [["1", "AECOM"]]⟩])
      ⟨canonicalHeaders, [[("Company Name", "AECOM"), ("Location", ""), ("RANK 2025", "1")]], 1⟩
      rfl
      [("Company Name", "AECOM"), ("Location", ""), ("RANK 2025", "1")] (by decide)
      ("RANK 2025", "1") (by decide),
   extract_canonical_keys.2 (some 0) none 1 ["1", "AECOM"]
      [("Company Name", "AECOM"), ("Location", ""), ("RANK 2025", "1")] (by decide)⟩

/-! ## Claim C10: rank-2025 resolves to the last matching column -/

/-- Helper: the fold resolves the rank-2025 index to the position of the
last pair whose header matches the rank-2025 pattern, falling back to
the initial value; each match overwrites the previous one. -/
theorem foldl_rank2025Index :
    ∀ (l : List (Nat × String)) (acc : ColumnIdx),
    (l.foldl resolveStep acc).rank2025Index =
      match l.reverse.find? (fun p => rank2025Matches p.2) with
      | some p => some p.1
      | none => acc.rank2025Index := by
  intro l
  induction l with
  | nil =>
    intro acc
    rfl
  | cons x t ih =>
    intro acc
    rw [List.foldl_cons, ih (resolveStep acc x), List.reverse_cons,
      List.find?_append]
    rcases hval : t.reverse.find? (fun p => rank2025Matches p.2) with _ | p
    · rw [hval]
      simp only [Option.none_or]
      by_cases hm : rank2025Matches x.2 = true
      · simp [resolveStep, List.find?_cons, hm]
      · simp only [Bool.not_eq_true] at hm
        simp [resolveStep, List.find?_cons, hm]
    · simp [hval]

/-- C10: the rank-2025 column resolved for a table is the last (highest
index) header matching the rank-2025 pattern (normalized form containing
both RANK and 2025); there is no first-match guard as there is for
rank-2024, so later duplicates overwrite earlier ones, and that index is
the one extractRow uses for the RANK 2025 field. -/
theorem rank2025_last_match (headers : List String) :
    (resolveColumns headers).rank2025Index =
      (headers.enum.reverse.find? (fun p => rank2025Matches p.2)).map Prod.fst := by
  rw [resolveColumns, foldl_rank2025Index]
  rcases h : headers.enum.reverse.find? (fun p => rank2025Matches p.2) with _ | p
  · simp [h]
  · simp [h]

end Crawler
